import Mathlib

/-!
Shallow embedding of the TrackLoadPlanner load-selection engine
(`src/app/services/optimizer.py` together with the validated data model of
`src/app/models/request.py` / `src/app/models/response.py`).

Conventions of the embedding:
* Python ints validated as non-negative (`payout_cents`) or positive
  (`weight_lbs`, `volume_cuft`, truck capacities) are modelled as `Nat`;
  positivity, where a claim needs it, is an explicit hypothesis.
* `date` values are modelled as `Int` (only their ordering is used).
* Python `float` arithmetic in `_create_response` is modelled over `ℚ`
  with round-half-to-even to two decimals, the rounding mode of Python's
  built-in `round`.
* Python dicts iterate in insertion order, so `_group_compatible_orders`
  produces groups keyed in first-occurrence order; `groupKeys` models that.
-/

/-- `Order` from `src/app/models/request.py`. -/
structure Order where
  id : String
  payout_cents : Nat
  weight_lbs : Nat
  volume_cuft : Nat
  origin : String
  destination : String
  pickup_date : Int
  delivery_date : Int
  is_hazmat : Bool
deriving DecidableEq, Repr

/-- `Truck` from `src/app/models/request.py`. -/
structure Truck where
  id : String
  max_weight_lbs : Nat
  max_volume_cuft : Nat
deriving DecidableEq, Repr

/-- `OptimizeRequest` from `src/app/models/request.py`. -/
structure OptimizeRequest where
  truck : Truck
  orders : List Order
deriving DecidableEq, Repr

/-- `OptimizeResponse` from `src/app/models/response.py`; the two
utilization percentages are rationals in this model. -/
structure OptimizeResponse where
  truck_id : String
  selected_order_ids : List String
  total_payout_cents : Nat
  total_weight_lbs : Nat
  total_volume_cuft : Nat
  utilization_weight_percent : ℚ
  utilization_volume_percent : ℚ
deriving DecidableEq, Repr

/-- `OrderGroup` from `src/app/services/optimizer.py`. -/
structure OrderGroup where
  orders : List Order
  is_hazmat : Bool
  origin : String
  destination : String
deriving DecidableEq, Repr

/-- The grouping key `(order.origin, order.destination, order.is_hazmat)`. -/
def okey (o : Order) : String × String × Bool :=
  (o.origin, o.destination, o.is_hazmat)

def sumPayout (l : List Order) : Nat := (l.map Order.payout_cents).sum
def sumWeight (l : List Order) : Nat := (l.map Order.weight_lbs).sum
def sumVolume (l : List Order) : Nat := (l.map Order.volume_cuft).sum

/-- Insert a key at the end unless already present: one step of the
insertion-order key list a Python `defaultdict` maintains. -/
def insertKey (ks : List (String × String × Bool)) (k : String × String × Bool) :
    List (String × String × Bool) :=
  if k ∈ ks then ks else ks ++ [k]

/-- The grouping keys in first-occurrence order (Python dict insertion order). -/
def groupKeys (orders : List Order) : List (String × String × Bool) :=
  orders.foldl (fun ks o => insertKey ks (okey o)) []

/-- `OptimizerService._group_compatible_orders`: one group per distinct key,
in first-occurrence order; each group's orders keep the input order. -/
def groupCompatibleOrders (orders : List Order) : List OrderGroup :=
  (groupKeys orders).map (fun k =>
    { orders := orders.filter (fun o => okey o = k)
      is_hazmat := k.2.2
      origin := k.1
      destination := k.2.1 })

/-- `OptimizerService._filter_feasible_orders`. -/
def filterFeasibleOrders (t : Truck) (orders : List Order) : List Order :=
  orders.filter (fun o =>
    o.weight_lbs ≤ t.max_weight_lbs ∧ o.volume_cuft ≤ t.max_volume_cuft)

/-- `max(order.pickup_date for order in orders)` on a non-empty list
(0 on the empty list, which the code never evaluates). -/
def maxPickup : List Order → Int
  | [] => 0
  | o :: rest => rest.foldl (fun m x => max m x.pickup_date) o.pickup_date

/-- `min(order.delivery_date for order in orders)` on a non-empty list. -/
def minDelivery : List Order → Int
  | [] => 0
  | o :: rest => rest.foldl (fun m x => min m x.delivery_date) o.delivery_date

/-- `OptimizerService._check_time_window_compatibility`. -/
def checkTimeWindowCompatibility (orders : List Order) : Bool :=
  if orders.length ≤ 1 then true
  else decide (maxPickup orders ≤ minDelivery orders)

/-- The sublist of `l` selected by the bits of `mask`
(`orders[i]` is included iff bit `i` of `mask` is set), exactly the
`selected` list built by the inner loop of `_bitmask_dp`. -/
def maskOrders : List Order → Nat → List Order
  | [], _ => []
  | o :: rest, mask =>
    (if mask % 2 = 1 then [o] else []) ++ maskOrders rest (mask / 2)

/-- The running best of `_bitmask_dp`:
`(best_payout, best_mask, best_weight, best_volume)`. -/
structure DPState where
  best_payout : Nat
  best_mask : Nat
  best_weight : Nat
  best_volume : Nat
deriving DecidableEq, Repr

/-- One iteration of the mask loop of `_bitmask_dp`: skip the mask when it
exceeds capacity or fails the time-window check, otherwise replace the
running best exactly when its payout strictly improves. -/
def dpStep (t : Truck) (l : List Order) (st : DPState) (mask : Nat) : DPState :=
  let selected := maskOrders l mask
  let total_weight := sumWeight selected
  let total_volume := sumVolume selected
  let total_payout := sumPayout selected
  if total_weight > t.max_weight_lbs ∨ total_volume > t.max_volume_cuft then st
  else if checkTimeWindowCompatibility selected = false then st
  else if total_payout > st.best_payout then
    ⟨total_payout, mask, total_weight, total_volume⟩
  else st

/-- The mask sequence `range(1, 1 << n)` of `_bitmask_dp`. -/
def maskRange (n : Nat) : List Nat := List.range' 1 (2 ^ n - 1)

/-- The final state of the mask loop of `_bitmask_dp`. -/
def dpFold (t : Truck) (l : List Order) : DPState :=
  (maskRange l.length).foldl (dpStep t l) ⟨0, 0, 0, 0⟩

/-- `OptimizerService._bitmask_dp`: returns
`(selected_orders, total_payout, total_weight, total_volume)`. -/
def bitmaskDP (t : Truck) (l : List Order) : List Order × Nat × Nat × Nat :=
  if l.length = 0 then ([], 0, 0, 0)
  else
    let st := dpFold t l
    (maskOrders l st.best_mask, st.best_payout, st.best_weight, st.best_volume)

/-- The running best of `_find_best_solution`:
`(best_payout, best_orders, best_weight, best_volume)`. -/
structure BestState where
  best_payout : Nat
  best_orders : List Order
  best_weight : Nat
  best_volume : Nat
deriving DecidableEq, Repr

/-- One iteration of the group loop of `_find_best_solution`: skip a group
with no individually-feasible order, otherwise run the DP and replace the
running best exactly when the group's payout strictly improves. -/
def groupStep (t : Truck) (st : BestState) (g : OrderGroup) : BestState :=
  let feasible := filterFeasibleOrders t g.orders
  if feasible.length = 0 then st
  else
    let r := bitmaskDP t feasible
    if r.2.1 > st.best_payout then ⟨r.2.1, r.1, r.2.2.1, r.2.2.2⟩ else st

/-- The final state of the group loop of `_find_best_solution`. -/
def bestState (t : Truck) (groups : List OrderGroup) : BestState :=
  groups.foldl (groupStep t) ⟨0, [], 0, 0⟩

/-- Round-half-to-even to an integer: the rounding mode of Python's
built-in `round`. -/
def roundHalfEven (q : ℚ) : ℤ :=
  if Int.fract q < 1 / 2 then ⌊q⌋
  else if 1 / 2 < Int.fract q then ⌊q⌋ + 1
  else if ⌊q⌋ % 2 = 0 then ⌊q⌋ else ⌊q⌋ + 1

/-- `round(x, 2)`: round-half-to-even at the second decimal. -/
def roundTo2 (q : ℚ) : ℚ := (roundHalfEven (q * 100) : ℚ) / 100

/-- `OptimizerService._create_response`. -/
def createResponse (t : Truck) (selected : List Order)
    (total_payout total_weight total_volume : Nat) : OptimizeResponse :=
  let weight_util : ℚ :=
    if total_weight > 0 then (total_weight : ℚ) / t.max_weight_lbs * 100 else 0
  let volume_util : ℚ :=
    if total_volume > 0 then (total_volume : ℚ) / t.max_volume_cuft * 100 else 0
  { truck_id := t.id
    selected_order_ids := selected.map Order.id
    total_payout_cents := total_payout
    total_weight_lbs := total_weight
    total_volume_cuft := total_volume
    utilization_weight_percent := roundTo2 weight_util
    utilization_volume_percent := roundTo2 volume_util }

/-- `OptimizerService._find_best_solution`. -/
def findBestSolution (t : Truck) (groups : List OrderGroup) : OptimizeResponse :=
  let st := bestState t groups
  createResponse t st.best_orders st.best_payout st.best_weight st.best_volume

/-- `OptimizerService.optimize` (equivalently the module-level
`optimize_load`). -/
def optimize (r : OptimizeRequest) : OptimizeResponse :=
  if r.orders.length = 0 then createResponse r.truck [] 0 0 0
  else findBestSolution r.truck (groupCompatibleOrders r.orders)

/-- The `best_orders` list the engine ends with: `[]` on an empty request,
otherwise the group loop's final selection.  `optimize` is
`createResponse` applied to this state (`optimize_eq_createResponse`). -/
def optimizeState (r : OptimizeRequest) : BestState :=
  if r.orders.length = 0 then ⟨0, [], 0, 0⟩
  else bestState r.truck (groupCompatibleOrders r.orders)

/-- A subset of orders the vehicle can carry together: within both
capacities and passing the code's time-window check. -/
def FeasibleSubset (t : Truck) (s : List Order) : Prop :=
  sumWeight s ≤ t.max_weight_lbs ∧ sumVolume s ≤ t.max_volume_cuft ∧
    checkTimeWindowCompatibility s = true

instance (t : Truck) (s : List Order) : Decidable (FeasibleSubset t s) := by
  unfold FeasibleSubset; infer_instance

/-- All members of the list share one grouping key. -/
def SameLane (s : List Order) : Prop :=
  ∀ o₁ ∈ s, ∀ o₂ ∈ s, okey o₁ = okey o₂

instance (s : List Order) : Decidable (SameLane s) := by
  unfold SameLane; infer_instance

/-! ### Basic lemmas about sums, masks and grouping -/

lemma sumPayout_nil : sumPayout [] = 0 := rfl
lemma sumWeight_nil : sumWeight [] = 0 := rfl
lemma sumVolume_nil : sumVolume [] = 0 := rfl

lemma sumPayout_pos_of_ne_nil {s : List Order} (h : 0 < sumPayout s) : s ≠ [] := by
  intro hs; subst hs; exact absurd h (by simp [sumPayout])

lemma weight_le_sumWeight {o : Order} {s : List Order} (h : o ∈ s) :
    o.weight_lbs ≤ sumWeight s :=
  List.single_le_sum (fun x _ => Nat.zero_le x) _ (List.mem_map_of_mem _ h)

lemma volume_le_sumVolume {o : Order} {s : List Order} (h : o ∈ s) :
    o.volume_cuft ≤ sumVolume s :=
  List.single_le_sum (fun x _ => Nat.zero_le x) _ (List.mem_map_of_mem _ h)

lemma maskOrders_zero (l : List Order) : maskOrders l 0 = [] := by
  induction l with
  | nil => rfl
  | cons o rest ih => simp [maskOrders, ih]

lemma maskOrders_sublist (l : List Order) (m : Nat) :
    List.Sublist (maskOrders l m) l := by
  induction l generalizing m with
  | nil => simp [maskOrders]
  | cons o rest ih =>
    by_cases h : m % 2 = 1
    · simpa [maskOrders, h] using List.Sublist.cons₂ o (ih (m / 2))
    · simpa [maskOrders, h] using List.Sublist.cons o (ih (m / 2))

lemma exists_mask_of_sublist {s l : List Order} (h : List.Sublist s l) :
    ∃ m, m < 2 ^ l.length ∧ maskOrders l m = s := by
  induction h with
  | slnil => exact ⟨0, by simp, rfl⟩
  | @cons s l o _ ih =>
    obtain ⟨m, hm, heq⟩ := ih
    refine ⟨2 * m, ?_, ?_⟩
    · have : 2 * m < 2 * 2 ^ l.length := by omega
      simpa [List.length_cons, pow_succ, Nat.mul_comm] using this
    · simp [maskOrders, Nat.mul_mod_right, Nat.mul_div_cancel_left m (by norm_num : 0 < 2), heq]
  | @cons₂ s l o _ ih =>
    obtain ⟨m, hm, heq⟩ := ih
    refine ⟨2 * m + 1, ?_, ?_⟩
    · have : 2 * m + 1 < 2 * 2 ^ l.length := by omega
      simpa [List.length_cons, pow_succ, Nat.mul_comm] using this
    · have h2 : (2 * m + 1) % 2 = 1 := by omega
      have h3 : (2 * m + 1) / 2 = m := by omega
      simp [maskOrders, h2, h3, heq]

lemma maskOrders_ne_nil {l : List Order} {m : Nat}
    (h1 : 1 ≤ m) (h2 : m < 2 ^ l.length) : maskOrders l m ≠ [] := by
  induction l generalizing m with
  | nil => simp at h2; omega
  | cons o rest ih =>
    by_cases h : m % 2 = 1
    · simp [maskOrders, h]
    · have hm2 : 1 ≤ m / 2 := by omega
      have hlt : m / 2 < 2 ^ rest.length := by
        have : m < 2 * 2 ^ rest.length := by
          simpa [List.length_cons, pow_succ, Nat.mul_comm] using h2
        omega
      simp only [maskOrders, h, if_false, List.nil_append]
      exact ih hm2 hlt

lemma mem_maskRange {n m : Nat} : m ∈ maskRange n ↔ 1 ≤ m ∧ m < 2 ^ n := by
  have h1 : (1 : Nat) ≤ 2 ^ n := Nat.one_le_two_pow
  rw [maskRange, List.mem_range'_1]
  omega

lemma sameLane_of_sublist {s l : List Order} (h : List.Sublist s l)
    (hl : SameLane l) : SameLane s :=
  fun o₁ h₁ o₂ h₂ => hl o₁ (h.subset h₁) o₂ (h.subset h₂)

lemma mem_groupKeys_aux (os : List Order) :
    ∀ ks : List (String × String × Bool),
      (∀ k ∈ ks, k ∈ os.foldl (fun ks o => insertKey ks (okey o)) ks) ∧
      (∀ o ∈ os, okey o ∈ os.foldl (fun ks o => insertKey ks (okey o)) ks) := by
  induction os with
  | nil => intro ks; exact ⟨fun k hk => hk, by simp⟩
  | cons a rest ih =>
    intro ks
    have hins : ∀ k ∈ ks, k ∈ insertKey ks (okey a) := by
      intro k hk; unfold insertKey; split <;> simp [hk]
    have hself : okey a ∈ insertKey ks (okey a) := by
      unfold insertKey; split <;> simp_all
    obtain ⟨ih1, ih2⟩ := ih (insertKey ks (okey a))
    refine ⟨fun k hk => ?_, fun o ho => ?_⟩
    · exact ih1 k (hins k hk)
    · rcases List.mem_cons.mp ho with h | h
      · subst h; exact ih1 _ hself
      · exact ih2 o h

lemma okey_mem_groupKeys {o : Order} {os : List Order} (h : o ∈ os) :
    okey o ∈ groupKeys os := (mem_groupKeys_aux os []).2 o h

lemma group_mem_groupCompatibleOrders {os : List Order} {k : String × String × Bool}
    (h : k ∈ groupKeys os) :
    ({ orders := os.filter (fun o => okey o = k)
       is_hazmat := k.2.2, origin := k.1, destination := k.2.1 } : OrderGroup) ∈
      groupCompatibleOrders os :=
  List.mem_map_of_mem _ h

/-! ### The inner mask loop of `_bitmask_dp` -/

/-- Case analysis of one mask iteration: either the state is unchanged (and
a feasible mask cannot have beaten the running best), or the mask was
feasible, strictly better, and became the new state. -/
lemma dpStep_cases (t : Truck) (l : List Order) (st : DPState) (m : Nat) :
    (dpStep t l st m = st ∧
      (FeasibleSubset t (maskOrders l m) →
        sumPayout (maskOrders l m) ≤ st.best_payout)) ∨
    (FeasibleSubset t (maskOrders l m) ∧
      st.best_payout < sumPayout (maskOrders l m) ∧
      dpStep t l st m =
        ⟨sumPayout (maskOrders l m), m, sumWeight (maskOrders l m),
          sumVolume (maskOrders l m)⟩) := by
  unfold dpStep FeasibleSubset
  set sel := maskOrders l m with hsel
  by_cases hcap : sumWeight sel > t.max_weight_lbs ∨ sumVolume sel > t.max_volume_cuft
  · left
    refine ⟨by simp [hcap], fun hf => absurd hcap ?_⟩
    push_neg
    exact ⟨hf.1, hf.2.1⟩
  · by_cases htime : checkTimeWindowCompatibility sel = false
    · left
      refine ⟨by simp [hcap, htime], fun hf => ?_⟩
      rw [hf.2.2] at htime; exact absurd htime (by simp)
    · by_cases hpay : sumPayout sel > st.best_payout
      · right
        push_neg at hcap
        refine ⟨⟨hcap.1, hcap.2, by simpa using htime⟩, hpay, ?_⟩
        simp [hcap, htime, hpay]
      · left
        refine ⟨?_, fun _ => by omega⟩
        simp [hcap, htime]
        omega

/-- `dpStep` never decreases the tracked payout. -/
lemma dpStep_payout_mono (t : Truck) (l : List Order) (st : DPState) (m : Nat) :
    st.best_payout ≤ (dpStep t l st m).best_payout := by
  rcases dpStep_cases t l st m with ⟨heq, _⟩ | ⟨_, hlt, heq⟩
  · rw [heq]
  · rw [heq]; exact le_of_lt hlt

/-- The mask fold never decreases the tracked payout. -/
lemma dpFoldl_payout_mono (t : Truck) (l : List Order) (ms : List Nat) :
    ∀ st : DPState, st.best_payout ≤ (ms.foldl (dpStep t l) st).best_payout := by
  induction ms with
  | nil => intro st; exact le_refl _
  | cons m rest ih =>
    intro st
    exact le_trans (dpStep_payout_mono t l st m) (ih (dpStep t l st m))

/-- The mask fold either leaves the state untouched or strictly increases
the tracked payout. -/
lemma dpFoldl_eq_or_lt (t : Truck) (l : List Order) (ms : List Nat) :
    ∀ st : DPState, ms.foldl (dpStep t l) st = st ∨
      st.best_payout < (ms.foldl (dpStep t l) st).best_payout := by
  induction ms with
  | nil => intro st; exact Or.inl rfl
  | cons m rest ih =>
    intro st
    rcases dpStep_cases t l st m with ⟨heq, _⟩ | ⟨_, hlt, heq⟩
    · simpa [List.foldl_cons, heq] using ih st
    · right
      calc st.best_payout < (dpStep t l st m).best_payout := by rw [heq]; exact hlt
        _ ≤ _ := dpFoldl_payout_mono t l rest _

/-- Every feasible mask in the processed list is dominated by the final
tracked payout. -/
lemma dpFoldl_dominates (t : Truck) (l : List Order) (ms : List Nat) :
    ∀ st : DPState, ∀ m ∈ ms, FeasibleSubset t (maskOrders l m) →
      sumPayout (maskOrders l m) ≤ (ms.foldl (dpStep t l) st).best_payout := by
  induction ms with
  | nil => intro st m hm; exact absurd hm (List.not_mem_nil m)
  | cons m₀ rest ih =>
    intro st m hm hf
    rcases List.mem_cons.mp hm with h | h
    · subst h
      have hstep : sumPayout (maskOrders l m) ≤ (dpStep t l st m).best_payout := by
        rcases dpStep_cases t l st m with ⟨heq, himp⟩ | ⟨_, _, heq⟩
        · rw [heq]; exact himp hf
        · rw [heq]
      exact le_trans hstep (dpFoldl_payout_mono t l rest _)
    · exact ih (dpStep t l st m₀) m h hf

/-- Soundness invariant of the mask loop: the four tracked components are
the sums over the tracked mask's selection, a zero payout means no mask was
ever adopted, and a positive payout means the tracked selection is
feasible. -/
def DPSound (t : Truck) (l : List Order) (st : DPState) : Prop :=
  st.best_payout = sumPayout (maskOrders l st.best_mask) ∧
  st.best_weight = sumWeight (maskOrders l st.best_mask) ∧
  st.best_volume = sumVolume (maskOrders l st.best_mask) ∧
  (st.best_payout = 0 → st.best_mask = 0) ∧
  (0 < st.best_payout → FeasibleSubset t (maskOrders l st.best_mask))

lemma dpStep_sound {t : Truck} {l : List Order} {st : DPState} (m : Nat)
    (h : DPSound t l st) : DPSound t l (dpStep t l st m) := by
  rcases dpStep_cases t l st m with ⟨heq, _⟩ | ⟨hf, hlt, heq⟩
  · rwa [heq]
  · rw [heq]
    exact ⟨rfl, rfl, rfl, fun h0 => by simp at h0; omega, fun _ => hf⟩

lemma dpFoldl_sound (t : Truck) (l : List Order) (ms : List Nat) :
    ∀ st : DPState, DPSound t l st → DPSound t l (ms.foldl (dpStep t l) st) := by
  induction ms with
  | nil => intro st h; exact h
  | cons m rest ih => intro st h; exact ih _ (dpStep_sound m h)

lemma dpFold_sound (t : Truck) (l : List Order) : DPSound t l (dpFold t l) := by
  apply dpFoldl_sound
  refine ⟨?_, ?_, ?_, fun _ => rfl, fun h => absurd h (by simp)⟩ <;>
    simp [maskOrders_zero, sumPayout, sumWeight, sumVolume]

/-! ### `_bitmask_dp` as a whole -/

/-- Components of the tuple `_bitmask_dp` returns: its totals are the sums
over its first component, a zero payout comes with an empty selection, a
positive payout with a feasible one, and the selection is a sublist of the
input. -/
lemma bitmaskDP_sound (t : Truck) (l : List Order) :
    (bitmaskDP t l).2.1 = sumPayout (bitmaskDP t l).1 ∧
    (bitmaskDP t l).2.2.1 = sumWeight (bitmaskDP t l).1 ∧
    (bitmaskDP t l).2.2.2 = sumVolume (bitmaskDP t l).1 ∧
    ((bitmaskDP t l).2.1 = 0 → (bitmaskDP t l).1 = []) ∧
    (0 < (bitmaskDP t l).2.1 → FeasibleSubset t (bitmaskDP t l).1) ∧
    List.Sublist (bitmaskDP t l).1 l := by
  unfold bitmaskDP
  by_cases h : l.length = 0
  · simp [h, sumPayout, sumWeight, sumVolume]
  · obtain ⟨h1, h2, h3, h4, h5⟩ := dpFold_sound t l
    simp only [h, if_false]
    exact ⟨h1, h2, h3, fun hz => by rw [h4 hz, maskOrders_zero],
      h5, maskOrders_sublist l _⟩

/-- Any feasible non-empty sublist of the DP input is dominated by the DP
payout. -/
lemma bitmaskDP_payout_ge (t : Truck) {l s : List Order}
    (hs : List.Sublist s l) (hne : s ≠ []) (hf : FeasibleSubset t s) :
    sumPayout s ≤ (bitmaskDP t l).2.1 := by
  obtain ⟨m, hm, heq⟩ := exists_mask_of_sublist hs
  have hm1 : 1 ≤ m := by
    rcases Nat.eq_zero_or_pos m with h0 | h1
    · subst h0; rw [maskOrders_zero] at heq; exact absurd heq.symm hne
    · exact h1
  have hlen : l.length ≠ 0 := by
    intro h0
    rw [h0] at hm
    omega
  have hmem : m ∈ maskRange l.length := mem_maskRange.mpr ⟨hm1, hm⟩
  have hdom := dpFoldl_dominates t l (maskRange l.length) ⟨0, 0, 0, 0⟩ m hmem
    (by rwa [heq])
  rw [heq] at hdom
  unfold bitmaskDP
  simpa [hlen] using hdom

/-! ### The group loop of `_find_best_solution` -/

/-- The payout `_find_best_solution` obtains for one group. -/
def groupScore (t : Truck) (g : OrderGroup) : Nat :=
  (bitmaskDP t (filterFeasibleOrders t g.orders)).2.1

/-- Soundness invariant of the group loop, relative to the request's order
list `R`. -/
def GSound (t : Truck) (R : List Order) (st : BestState) : Prop :=
  st.best_payout = sumPayout st.best_orders ∧
  st.best_weight = sumWeight st.best_orders ∧
  st.best_volume = sumVolume st.best_orders ∧
  (st.best_payout = 0 → st.best_orders = []) ∧
  (0 < st.best_payout → FeasibleSubset t st.best_orders) ∧
  List.Sublist st.best_orders R ∧
  SameLane st.best_orders

lemma groupStep_gsound {t : Truck} {R : List Order} {st : BestState}
    {g : OrderGroup} (hg : List.Sublist g.orders R ∧ SameLane g.orders)
    (h : GSound t R st) : GSound t R (groupStep t st g) := by
  unfold groupStep
  by_cases hempty : (filterFeasibleOrders t g.orders).length = 0
  · simpa [hempty] using h
  · simp only [hempty, if_false]
    set feas := filterFeasibleOrders t g.orders with hfeas
    obtain ⟨d1, d2, d3, d4, d5, d6⟩ := bitmaskDP_sound t feas
    by_cases hpay : (bitmaskDP t feas).2.1 > st.best_payout
    · simp only [hpay, if_true]
      have hsub : List.Sublist (bitmaskDP t feas).1 R :=
        d6.trans ((List.filter_sublist g.orders).trans hg.1)
      have hpos : 0 < (bitmaskDP t feas).2.1 :=
        lt_of_le_of_lt (Nat.zero_le st.best_payout) hpay
      refine ⟨d1, d2, d3, fun h0 => absurd h0 hpos.ne', fun _ => d5 hpos, hsub, ?_⟩
      exact sameLane_of_sublist (d6.trans (List.filter_sublist g.orders)) hg.2
    · simpa [hpay] using h

lemma bestState_gsound (t : Truck) (R : List Order) (gs : List OrderGroup)
    (hgs : ∀ g ∈ gs, List.Sublist g.orders R ∧ SameLane g.orders) :
    GSound t R (bestState t gs) := by
  unfold bestState
  have hinit : GSound t R ⟨0, [], 0, 0⟩ := by
    refine ⟨rfl, rfl, rfl, fun _ => rfl, fun h => absurd h (by simp), ?_, ?_⟩
    · exact List.nil_sublist R
    · intro o₁ h₁; exact absurd h₁ (List.not_mem_nil o₁)
  revert hinit
  generalize (⟨0, [], 0, 0⟩ : BestState) = st
  intro hinit
  induction gs generalizing st with
  | nil => exact hinit
  | cons g rest ih =>
    have hg := hgs g (List.mem_cons_self g rest)
    have hrest : ∀ g' ∈ rest, List.Sublist g'.orders R ∧ SameLane g'.orders :=
      fun g' h' => hgs g' (List.mem_cons_of_mem g h')
    exact ih hrest _ (groupStep_gsound hg hinit)

/-- The group loop never decreases the tracked payout, and each processed
group's score is dominated by the final payout. -/
lemma groupStep_payout_mono (t : Truck) (st : BestState) (g : OrderGroup) :
    st.best_payout ≤ (groupStep t st g).best_payout := by
  unfold groupStep
  by_cases hempty : (filterFeasibleOrders t g.orders).length = 0
  · simp [hempty]
  · by_cases hpay : (bitmaskDP t (filterFeasibleOrders t g.orders)).2.1 > st.best_payout
    · simp [hempty, hpay]
      omega
    · simp [hempty, hpay]

lemma groupFoldl_payout_mono (t : Truck) (gs : List OrderGroup) :
    ∀ st : BestState, st.best_payout ≤ (gs.foldl (groupStep t) st).best_payout := by
  induction gs with
  | nil => intro st; exact le_refl _
  | cons g rest ih =>
    intro st
    exact le_trans (groupStep_payout_mono t st g) (ih (groupStep t st g))

lemma groupStep_score_le (t : Truck) (st : BestState) (g : OrderGroup) :
    groupScore t g ≤ (groupStep t st g).best_payout := by
  unfold groupStep groupScore
  by_cases hempty : (filterFeasibleOrders t g.orders).length = 0
  · have : filterFeasibleOrders t g.orders = [] := List.length_eq_zero.mp hempty
    simp [hempty, this, bitmaskDP]
  · by_cases hpay : (bitmaskDP t (filterFeasibleOrders t g.orders)).2.1 > st.best_payout
    · simp [hempty, hpay]
    · simp [hempty, hpay]
      omega

lemma bestState_score_le (t : Truck) (gs : List OrderGroup) {g : OrderGroup}
    (hg : g ∈ gs) : groupScore t g ≤ (bestState t gs).best_payout := by
  unfold bestState
  generalize (⟨0, [], 0, 0⟩ : BestState) = st
  induction gs generalizing st with
  | nil => exact absurd hg (List.not_mem_nil g)
  | cons g₀ rest ih =>
    rcases List.mem_cons.mp hg with h | h
    · subst h
      exact le_trans (groupStep_score_le t st g) (groupFoldl_payout_mono t rest _)
    · exact ih h _

/-! ### `optimize` as a whole -/

lemma groupCompatibleOrders_good (os : List Order) :
    ∀ g ∈ groupCompatibleOrders os, List.Sublist g.orders os ∧ SameLane g.orders := by
  intro g hg
  obtain ⟨k, _, hk⟩ := List.mem_map.mp hg
  subst hk
  refine ⟨List.filter_sublist os, ?_⟩
  intro o₁ h₁ o₂ h₂
  have e₁ : okey o₁ = k := by simpa using (List.mem_filter.mp h₁).2
  have e₂ : okey o₂ = k := by simpa using (List.mem_filter.mp h₂).2
  rw [e₁, e₂]

lemma optimizeState_gsound (r : OptimizeRequest) :
    GSound r.truck r.orders (optimizeState r) := by
  unfold optimizeState
  by_cases h : r.orders.length = 0
  · simp only [h, if_true]
    refine ⟨rfl, rfl, rfl, fun _ => rfl, fun hp => absurd hp (by simp), ?_, ?_⟩
    · exact List.nil_sublist _
    · intro o₁ h₁; exact absurd h₁ (List.not_mem_nil o₁)
  · simp only [h, if_false]
    exact bestState_gsound r.truck r.orders _ (groupCompatibleOrders_good r.orders)

/-- `optimize` is `_create_response` applied to the final state of the
group loop. -/
lemma optimize_eq_createResponse (r : OptimizeRequest) :
    optimize r = createResponse r.truck (optimizeState r).best_orders
      (optimizeState r).best_payout (optimizeState r).best_weight
      (optimizeState r).best_volume := by
  unfold optimize optimizeState findBestSolution
  by_cases h : r.orders.length = 0 <;> simp [h]

/-- Global optimality: no same-lane, feasible sublist of the request's
orders has payout above the engine's tracked best. -/
lemma payout_le_optimizeState (r : OptimizeRequest) {s : List Order}
    (hs : List.Sublist s r.orders) (hlane : SameLane s)
    (hf : FeasibleSubset r.truck s) :
    sumPayout s ≤ (optimizeState r).best_payout := by
  rcases List.eq_nil_or_concat s with hnil | ⟨_, _, hne⟩
  · subst hnil; simp [sumPayout]
  · have hsne : s ≠ [] := by subst hne; simp
    obtain ⟨o, ho⟩ : ∃ o, o ∈ s := by
      rcases s with _ | ⟨o, rest⟩
      · exact absurd rfl hsne
      · exact ⟨o, List.mem_cons_self o rest⟩
    have hoR : o ∈ r.orders := hs.subset ho
    have hlen : r.orders.length ≠ 0 := by
      intro h0
      rw [List.length_eq_zero.mp h0] at hoR
      exact absurd hoR (List.not_mem_nil o)
    -- the group of `o`'s key
    set k := okey o with hk
    have hkeys : k ∈ groupKeys r.orders := okey_mem_groupKeys hoR
    set g : OrderGroup :=
      { orders := r.orders.filter (fun x => okey x = k)
        is_hazmat := k.2.2, origin := k.1, destination := k.2.1 } with hgdef
    have hgmem : g ∈ groupCompatibleOrders r.orders :=
      group_mem_groupCompatibleOrders hkeys
    -- `s` is a sublist of the group's orders
    have hall : ∀ x ∈ s, okey x = k := fun x hx => hlane x hx o ho
    have hs₁ : List.Sublist s g.orders := by
      have hself : s.filter (fun x => decide (okey x = k)) = s :=
        List.filter_eq_self.mpr (fun a ha => decide_eq_true (hall a ha))
      have := hs.filter (fun x => decide (okey x = k))
      rwa [hself] at this
    -- `s` is a sublist of the group's individually-feasible orders
    have hs₂ : List.Sublist s (filterFeasibleOrders r.truck g.orders) := by
      have hself : s.filter
          (fun x => decide (x.weight_lbs ≤ r.truck.max_weight_lbs ∧
            x.volume_cuft ≤ r.truck.max_volume_cuft)) = s := by
        refine List.filter_eq_self.mpr (fun a ha => decide_eq_true ?_)
        constructor
        · exact le_trans (weight_le_sumWeight ha) hf.1
        · exact le_trans (volume_le_sumVolume ha) hf.2.1
      unfold filterFeasibleOrders
      have := hs₁.filter
        (fun x => decide (x.weight_lbs ≤ r.truck.max_weight_lbs ∧
          x.volume_cuft ≤ r.truck.max_volume_cuft))
      rwa [hself] at this
    have hscore : sumPayout s ≤ groupScore r.truck g :=
      bitmaskDP_payout_ge r.truck hs₂ hsne hf
    have hbest : groupScore r.truck g ≤
        (bestState r.truck (groupCompatibleOrders r.orders)).best_payout :=
      bestState_score_le r.truck _ hgmem
    unfold optimizeState
    simp only [hlen, if_false]
    exact le_trans hscore hbest
/-! ### Rounding -/

lemma roundHalfEven_zero : roundHalfEven 0 = 0 := by
  unfold roundHalfEven
  norm_num

lemma roundTo2_zero : roundTo2 0 = 0 := by
  unfold roundTo2
  rw [zero_mul, roundHalfEven_zero]
  norm_num

lemma roundHalfEven_nonneg {q : ℚ} (h : 0 ≤ q) : 0 ≤ roundHalfEven q := by
  have hf : 0 ≤ ⌊q⌋ := Int.floor_nonneg.mpr h
  unfold roundHalfEven
  split_ifs <;> omega

lemma roundHalfEven_le_intCast {q : ℚ} {z : ℤ} (h : q ≤ (z : ℚ)) :
    roundHalfEven q ≤ z := by
  have hfl : ⌊q⌋ ≤ z := by
    have := Int.floor_le_floor h
    rwa [Int.floor_intCast] at this
  have hfr : Int.fract q = q - ⌊q⌋ := rfl
  have hstrict : (1 : ℚ) / 2 ≤ Int.fract q → ⌊q⌋ + 1 ≤ z := by
    intro hpos
    have h1 : (⌊q⌋ : ℚ) < q := by rw [hfr] at hpos; linarith
    have h2 : (⌊q⌋ : ℚ) < (z : ℚ) := lt_of_lt_of_le h1 h
    have h3 : ⌊q⌋ < z := by exact_mod_cast h2
    omega
  unfold roundHalfEven
  split_ifs with h1 h2 h3
  · exact hfl
  · exact hstrict (le_of_lt h2)
  · exact hfl
  · exact hstrict (not_lt.mp h1)

lemma roundTo2_nonneg {q : ℚ} (h : 0 ≤ q) : 0 ≤ roundTo2 q := by
  unfold roundTo2
  have : (0 : ℚ) ≤ (roundHalfEven (q * 100) : ℚ) := by
    exact_mod_cast roundHalfEven_nonneg (by positivity)
  positivity

lemma roundTo2_le_hundred {q : ℚ} (h : q ≤ 100) : roundTo2 q ≤ 100 := by
  unfold roundTo2
  have h1 : q * 100 ≤ ((10000 : ℤ) : ℚ) := by push_cast; linarith
  have h2 : roundHalfEven (q * 100) ≤ 10000 := roundHalfEven_le_intCast h1
  have h3 : (roundHalfEven (q * 100) : ℚ) ≤ 10000 := by exact_mod_cast h2
  linarith

/-! ### The time-window check -/

lemma maxPickup_singleton (o : Order) : maxPickup [o] = o.pickup_date := rfl
lemma minDelivery_singleton (o : Order) : minDelivery [o] = o.delivery_date := rfl

/-- What passing the code's time-window check means: on a valid input
(delivery ≥ pickup order-wise) a non-empty list that passes has its
latest pickup at or before its earliest delivery; the singleton case
holds by the validity precondition alone. -/
lemma time_ok_of_check {s : List Order}
    (hvalid : ∀ o ∈ s, o.pickup_date ≤ o.delivery_date)
    (hcheck : checkTimeWindowCompatibility s = true) (hne : s ≠ []) :
    maxPickup s ≤ minDelivery s := by
  unfold checkTimeWindowCompatibility at hcheck
  by_cases hlen : s.length ≤ 1
  · match s, hne with
    | [o], _ =>
      rw [maxPickup_singleton, minDelivery_singleton]
      exact hvalid o (List.mem_cons_self o [])
    | o₁ :: o₂ :: rest, _ => simp at hlen
  · rw [if_neg hlen] at hcheck
    exact of_decide_eq_true hcheck

/-! ### Tie-breaking -/

/-- Masks are examined in increasing order and the best is replaced only on
strict improvement, so the final tracked mask is at most any feasible mask
attaining the final payout. -/
lemma dpFoldl_min (t : Truck) (l : List Order) :
    ∀ (len a : Nat) (st : DPState),
      (0 < st.best_payout → st.best_mask < a) →
      (st.best_payout = 0 → st.best_mask = 0) →
      ∀ m ∈ List.range' a len, FeasibleSubset t (maskOrders l m) →
        sumPayout (maskOrders l m) =
          ((List.range' a len).foldl (dpStep t l) st).best_payout →
        ((List.range' a len).foldl (dpStep t l) st).best_mask ≤ m := by
  intro len
  induction len with
  | zero => intro a st _ _ m hm; exact absurd hm (by simp)
  | succ len ih =>
    intro a st hlt hzero m hm hf heq
    rw [List.range'_succ] at hm heq ⊢
    rw [List.foldl_cons] at heq ⊢
    rcases List.mem_cons.mp hm with hma | hmrest
    · -- the mask under scrutiny is the first of the remaining range
      subst hma
      rcases dpStep_cases t l st m with ⟨hunch, himp⟩ | ⟨_, hlt₂, hupd⟩
      · -- not adopted at its own turn: the final payout never reaches it
        rw [hunch] at heq ⊢
        have hle : sumPayout (maskOrders l m) ≤ st.best_payout := himp hf
        rcases dpFoldl_eq_or_lt t l (List.range' (m + 1) len) st with hfin | hfin
        · rw [hfin]
          rcases Nat.eq_zero_or_pos st.best_payout with hz | hp
          · rw [hzero hz]; exact Nat.zero_le m
          · exact le_of_lt (hlt hp)
        · exfalso
          rw [← heq] at hfin
          omega
      · -- adopted at its own turn: only a strictly better mask could
        -- displace it, and none did by `heq`
        rw [hupd] at heq ⊢
        rcases dpFoldl_eq_or_lt t l (List.range' (m + 1) len)
            ⟨sumPayout (maskOrders l m), m, sumWeight (maskOrders l m),
              sumVolume (maskOrders l m)⟩ with hfin | hfin
        · rw [hfin]
        · exfalso
          rw [← heq] at hfin
          exact absurd hfin (by simp)
    · -- the mask lies further along the range: induct from the next start
      refine ih (a + 1) (dpStep t l st a) ?_ ?_ m hmrest hf heq
      · intro hp
        rcases dpStep_cases t l st a with ⟨hunch, _⟩ | ⟨_, _, hupd⟩
        · rw [hunch] at hp ⊢
          exact Nat.lt_succ_of_lt (hlt hp)
        · rw [hupd]
          exact Nat.lt_succ_self a
      · intro hp
        rcases dpStep_cases t l st a with ⟨hunch, _⟩ | ⟨_, hlt₂, hupd⟩
        · rw [hunch] at hp ⊢
          exact hzero hp
        · exfalso
          rw [hupd] at hp
          simp at hp
          omega

/-- Instance of `dpFoldl_min` for the loop `_bitmask_dp` actually runs. -/
lemma dpFold_min (t : Truck) (l : List Order) {m : Nat}
    (hm : m ∈ maskRange l.length)
    (hf : FeasibleSubset t (maskOrders l m))
    (heq : sumPayout (maskOrders l m) = (dpFold t l).best_payout) :
    (dpFold t l).best_mask ≤ m := by
  unfold dpFold maskRange at *
  exact dpFoldl_min t l (2 ^ l.length - 1) 1 ⟨0, 0, 0, 0⟩
    (fun h => absurd h (by simp)) (fun _ => rfl) m hm hf heq

/-- A later group whose best payout does not strictly exceed the running
best leaves the whole group-loop state unchanged (ties keep the earlier
group). -/
lemma bestState_append_of_le (t : Truck) (gs : List OrderGroup)
    (g : OrderGroup) (h : groupScore t g ≤ (bestState t gs).best_payout) :
    bestState t (gs ++ [g]) = bestState t gs := by
  unfold bestState at *
  rw [List.foldl_append, List.foldl_cons, List.foldl_nil]
  set st := gs.foldl (groupStep t) ⟨0, [], 0, 0⟩ with hst
  unfold groupStep
  by_cases hempty : (filterFeasibleOrders t g.orders).length = 0
  · simp [hempty]
  · have hnot : ¬ (bitmaskDP t (filterFeasibleOrders t g.orders)).2.1 >
        st.best_payout := by
      unfold groupScore at h
      omega
    simp [hempty, hnot]

/-! ### Helper facts shared by several claims -/

lemma optimizeState_totals_le (r : OptimizeRequest) :
    sumWeight (optimizeState r).best_orders ≤ r.truck.max_weight_lbs ∧
    sumVolume (optimizeState r).best_orders ≤ r.truck.max_volume_cuft := by
  obtain ⟨_, _, _, g4, g5, _, _⟩ := optimizeState_gsound r
  rcases Nat.eq_zero_or_pos (optimizeState r).best_payout with hz | hp
  · rw [g4 hz]
    simp [sumWeight_nil, sumVolume_nil]
  · exact ⟨(g5 hp).1, (g5 hp).2.1⟩

/-! ### The claims -/

/-- C1: For every vehicle and every list of orders, the subset of orders
returned by the optimizer has total payout greater than or equal to the
total payout of every subset of the input orders whose members all share
the same (origin, destination, hazmat) key, whose summed weight and volume
are within the vehicle's maximum weight and volume, and whose maximum
pickup date is at most its minimum delivery date. -/
theorem c1_optimizer_globally_optimal (r : OptimizeRequest) (s : List Order)
    (hs : List.Sublist s r.orders)
    (hlane : SameLane s)
    (hw : sumWeight s ≤ r.truck.max_weight_lbs)
    (hv : sumVolume s ≤ r.truck.max_volume_cuft)
    (ht : maxPickup s ≤ minDelivery s) :
    sumPayout s ≤ (optimize r).total_payout_cents := by
  have hcheck : checkTimeWindowCompatibility s = true := by
    unfold checkTimeWindowCompatibility
    by_cases h : s.length ≤ 1
    · simp [h]
    · rw [if_neg h]
      exact decide_eq_true ht
  have hle := payout_le_optimizeState r hs hlane ⟨hw, hv, hcheck⟩
  rw [optimize_eq_createResponse]
  exact hle

theorem c1_witness :
    sumPayout [(⟨"A", 125000, 12000, 600, "X", "Y", 10, 20, false⟩ : Order)] ≤
      (optimize ⟨⟨"T", 45000, 2500⟩,
        [⟨"A", 125000, 12000, 600, "X", "Y", 10, 20, false⟩,
         ⟨"B", 98000, 8500, 450, "X", "Y", 12, 18, false⟩]⟩).total_payout_cents :=
  c1_optimizer_globally_optimal _ _ (by decide) (by decide) (by decide)
    (by decide) (by decide)

/-- C2 as stated is FALSE on the code: a single order with payout 0 is a
feasible non-empty subset (it fits the vehicle and its window is trivially
compatible), yet the optimizer returns an empty selection, because the best
is only replaced on a strictly positive payout improvement. -/
theorem c2_counterexample :
    (∃ s : List Order,
      List.Sublist s [⟨"Z", 0, 1, 1, "X", "Y", 10, 20, false⟩] ∧ s ≠ [] ∧
      SameLane s ∧ FeasibleSubset ⟨"T", 1, 1⟩ s) ∧
    (optimize ⟨⟨"T", 1, 1⟩,
      [⟨"Z", 0, 1, 1, "X", "Y", 10, 20, false⟩]⟩).selected_order_ids = [] := by
  constructor
  · exact ⟨[⟨"Z", 0, 1, 1, "X", "Y", 10, 20, false⟩],
      by decide, by decide, by decide, by decide⟩
  · decide

/-- C2 amended: the optimizer returns an empty selection (and then all its
totals are zero) if and only if every same-lane, capacity- and
time-feasible subset of the input has total payout zero — equivalently,
the selection is non-empty exactly when some feasible subset has strictly
positive payout. -/
theorem c2_empty_iff_no_positive_feasible (r : OptimizeRequest) :
    ((optimize r).selected_order_ids = [] ∧
     (optimize r).total_payout_cents = 0 ∧
     (optimize r).total_weight_lbs = 0 ∧
     (optimize r).total_volume_cuft = 0) ↔
    (∀ s : List Order, List.Sublist s r.orders → SameLane s →
      FeasibleSubset r.truck s → sumPayout s = 0) := by
  obtain ⟨g1, g2, g3, g4, g5, g6, g7⟩ := optimizeState_gsound r
  rw [optimize_eq_createResponse]
  simp only [createResponse]
  constructor
  · rintro ⟨hids, -, -, -⟩
    have hnil : (optimizeState r).best_orders = [] :=
      List.map_eq_nil_iff.mp hids
    have hzero : (optimizeState r).best_payout = 0 := by
      rw [g1, hnil, sumPayout_nil]
    intro s hs hlane hf
    have := payout_le_optimizeState r hs hlane hf
    omega
  · intro hall
    have hnil : (optimizeState r).best_orders = [] := by
      by_contra hne
      have hpos : 0 < (optimizeState r).best_payout := by
        rcases Nat.eq_zero_or_pos (optimizeState r).best_payout with hz | hp
        · exact absurd (g4 hz) hne
        · exact hp
      have hzero := hall (optimizeState r).best_orders g6 g7 (g5 hpos)
      omega
    refine ⟨by rw [hnil]; rfl, ?_, ?_, ?_⟩
    · rw [g1, hnil, sumPayout_nil]
    · rw [g2, hnil, sumWeight_nil]
    · rw [g3, hnil, sumVolume_nil]

theorem c2_witness :
    sumPayout [(⟨"Z", 0, 1, 1, "X", "Y", 10, 20, false⟩ : Order)] = 0 :=
  (c2_empty_iff_no_positive_feasible
      ⟨⟨"T", 1, 1⟩, [⟨"Z", 0, 1, 1, "X", "Y", 10, 20, false⟩]⟩).mp
    (by refine ⟨?_, ?_, ?_, ?_⟩ <;> decide)
    [⟨"Z", 0, 1, 1, "X", "Y", 10, 20, false⟩] (by decide) (by decide) (by decide)

/-- C3: For every request whose order list is empty, the optimizer returns
a Result with an empty selection, total payout 0, total weight 0, total
volume 0, and both utilization percentages 0. -/
theorem c3_empty_orders (r : OptimizeRequest) (h : r.orders = []) :
    optimize r =
      { truck_id := r.truck.id
        selected_order_ids := []
        total_payout_cents := 0
        total_weight_lbs := 0
        total_volume_cuft := 0
        utilization_weight_percent := 0
        utilization_volume_percent := 0 } := by
  unfold optimize createResponse
  rw [h]
  simp [roundTo2_zero]

theorem c3_witness :
    optimize ⟨⟨"T", 45000, 2500⟩, []⟩ =
      { truck_id := "T"
        selected_order_ids := []
        total_payout_cents := 0
        total_weight_lbs := 0
        total_volume_cuft := 0
        utilization_weight_percent := 0
        utilization_volume_percent := 0 } :=
  c3_empty_orders ⟨⟨"T", 45000, 2500⟩, []⟩ rfl

/-- C9: The optimizer is a deterministic pure function: identical inputs
(same vehicle and same order list, in the same order) give Results equal
in every field.  In this embedding `optimize` is a pure function of the
request, so equal requests map to equal responses. -/
theorem c9_deterministic (r₁ r₂ : OptimizeRequest) (h : r₁ = r₂) :
    optimize r₁ = optimize r₂ :=
  congrArg optimize h

theorem c9_witness :
    optimize ⟨⟨"T", 45000, 2500⟩,
      [⟨"A", 125000, 12000, 600, "X", "Y", 10, 20, false⟩]⟩ =
    optimize ⟨⟨"T", 45000, 2500⟩,
      [⟨"A", 125000, 12000, 600, "X", "Y", 10, 20, false⟩]⟩ :=
  c9_deterministic _ _ rfl

/-- C4: the returned totals never exceed the vehicle's capacities, and
every selected order individually fits the vehicle — an order whose own
weight or volume exceeds capacity never appears in a selection. -/
theorem c4_capacity_invariant (r : OptimizeRequest) :
    (optimize r).total_weight_lbs ≤ r.truck.max_weight_lbs ∧
    (optimize r).total_volume_cuft ≤ r.truck.max_volume_cuft ∧
    ∀ o ∈ (optimizeState r).best_orders,
      o.weight_lbs ≤ r.truck.max_weight_lbs ∧
      o.volume_cuft ≤ r.truck.max_volume_cuft := by
  obtain ⟨hw, hv⟩ := optimizeState_totals_le r
  obtain ⟨_, g2, g3, _, _, _, _⟩ := optimizeState_gsound r
  rw [optimize_eq_createResponse]
  refine ⟨?_, ?_, ?_⟩
  · simpa [createResponse, g2] using hw
  · simpa [createResponse, g3] using hv
  · intro o ho
    exact ⟨le_trans (weight_le_sumWeight ho) hw,
      le_trans (volume_le_sumVolume ho) hv⟩

theorem c4_witness :
    (optimize ⟨⟨"T", 45000, 2500⟩,
      [⟨"A", 125000, 12000, 600, "X", "Y", 10, 20, false⟩,
       ⟨"B", 98000, 8500, 450, "X", "Y", 12, 18, false⟩]⟩).total_weight_lbs ≤
        45000 ∧
    (⟨"A", 125000, 12000, 600, "X", "Y", 10, 20, false⟩ : Order).weight_lbs ≤
        45000 :=
  ⟨(c4_capacity_invariant ⟨⟨"T", 45000, 2500⟩,
      [⟨"A", 125000, 12000, 600, "X", "Y", 10, 20, false⟩,
       ⟨"B", 98000, 8500, 450, "X", "Y", 12, 18, false⟩]⟩).1,
   ((c4_capacity_invariant ⟨⟨"T", 45000, 2500⟩,
      [⟨"A", 125000, 12000, 600, "X", "Y", 10, 20, false⟩,
       ⟨"B", 98000, 8500, 450, "X", "Y", 12, 18, false⟩]⟩).2.2 _ (by decide)).1⟩

/-- C5: any two orders in the returned selection have exactly equal origin
strings, exactly equal destination strings, and equal hazardous flags: the
whole selection comes from a single compatibility group, with exact
equality and no normalization. -/
theorem c5_single_lane (r : OptimizeRequest) :
    ∀ o₁ ∈ (optimizeState r).best_orders, ∀ o₂ ∈ (optimizeState r).best_orders,
      o₁.origin = o₂.origin ∧ o₁.destination = o₂.destination ∧
        o₁.is_hazmat = o₂.is_hazmat := by
  obtain ⟨_, _, _, _, _, _, g7⟩ := optimizeState_gsound r
  intro o₁ h₁ o₂ h₂
  have hk := g7 o₁ h₁ o₂ h₂
  unfold okey at hk
  exact ⟨congrArg Prod.fst hk, congrArg (fun p => p.2.1) hk,
    congrArg (fun p => p.2.2) hk⟩

theorem c5_witness :
    (⟨"A", 125000, 12000, 600, "X", "Y", 10, 20, false⟩ : Order).origin =
      (⟨"B", 98000, 8500, 450, "X", "Y", 12, 18, false⟩ : Order).origin :=
  (c5_single_lane ⟨⟨"T", 45000, 2500⟩,
      [⟨"A", 125000, 12000, 600, "X", "Y", 10, 20, false⟩,
       ⟨"B", 98000, 8500, 450, "X", "Y", 12, 18, false⟩]⟩
    _ (by decide) _ (by decide)).1

/-- C6: on a valid request (each order's delivery at or after its pickup),
a non-empty selection has its latest pickup date at or before its earliest
delivery date; a singleton selection satisfies this by the validity
precondition alone, since the code's check accepts every singleton. -/
theorem c6_time_window_invariant (r : OptimizeRequest)
    (hvalid : ∀ o ∈ r.orders, o.pickup_date ≤ o.delivery_date)
    (hne : (optimizeState r).best_orders ≠ []) :
    maxPickup (optimizeState r).best_orders ≤
      minDelivery (optimizeState r).best_orders := by
  obtain ⟨_, _, _, g4, g5, g6, _⟩ := optimizeState_gsound r
  have hpos : 0 < (optimizeState r).best_payout := by
    rcases Nat.eq_zero_or_pos (optimizeState r).best_payout with hz | hp
    · exact absurd (g4 hz) hne
    · exact hp
  have hcheck : checkTimeWindowCompatibility (optimizeState r).best_orders = true :=
    (g5 hpos).2.2
  exact time_ok_of_check (fun o ho => hvalid o (g6.subset ho)) hcheck hne

theorem c6_witness :
    maxPickup (optimizeState ⟨⟨"T", 45000, 2500⟩,
      [⟨"A", 125000, 12000, 600, "X", "Y", 10, 20, false⟩,
       ⟨"B", 98000, 8500, 450, "X", "Y", 12, 18, false⟩]⟩).best_orders ≤
    minDelivery (optimizeState ⟨⟨"T", 45000, 2500⟩,
      [⟨"A", 125000, 12000, 600, "X", "Y", 10, 20, false⟩,
       ⟨"B", 98000, 8500, 450, "X", "Y", 12, 18, false⟩]⟩).best_orders :=
  c6_time_window_invariant _ (by decide) (by decide)

/-- C7: ties break to the first occurrence, under strict improvement.
Within a group, masks run in increasing numeric order and the tracked best
mask is at most any feasible mask attaining the final best payout (an
equal-payout later mask never displaces it); across groups, appending a
group whose best payout does not strictly exceed the running best leaves
the final state unchanged (an equal-payout later group never wins). -/
theorem c7_tie_breaks (t : Truck) (l : List Order) (m : Nat)
    (gs : List OrderGroup) (g : OrderGroup)
    (hm : m ∈ maskRange l.length)
    (hf : FeasibleSubset t (maskOrders l m))
    (heq : sumPayout (maskOrders l m) = (dpFold t l).best_payout)
    (hg : groupScore t g ≤ (bestState t gs).best_payout) :
    (dpFold t l).best_mask ≤ m ∧ bestState t (gs ++ [g]) = bestState t gs :=
  ⟨dpFold_min t l hm hf heq, bestState_append_of_le t gs g hg⟩

theorem c7_witness :
    (dpFold ⟨"T", 1, 1⟩
      [⟨"1", 5, 1, 1, "X", "Y", 0, 9, false⟩,
       ⟨"2", 5, 1, 1, "X", "Y", 0, 9, false⟩]).best_mask ≤ 2 ∧
    bestState ⟨"T", 1, 1⟩
      [⟨[⟨"1", 5, 1, 1, "X", "Y", 0, 9, false⟩,
         ⟨"2", 5, 1, 1, "X", "Y", 0, 9, false⟩], false, "X", "Y"⟩,
       ⟨[⟨"1", 5, 1, 1, "X", "Y", 0, 9, false⟩,
         ⟨"2", 5, 1, 1, "X", "Y", 0, 9, false⟩], false, "X", "Y"⟩] =
    bestState ⟨"T", 1, 1⟩
      [⟨[⟨"1", 5, 1, 1, "X", "Y", 0, 9, false⟩,
         ⟨"2", 5, 1, 1, "X", "Y", 0, 9, false⟩], false, "X", "Y"⟩] :=
  c7_tie_breaks ⟨"T", 1, 1⟩
    [⟨"1", 5, 1, 1, "X", "Y", 0, 9, false⟩,
     ⟨"2", 5, 1, 1, "X", "Y", 0, 9, false⟩] 2
    [⟨[⟨"1", 5, 1, 1, "X", "Y", 0, 9, false⟩,
       ⟨"2", 5, 1, 1, "X", "Y", 0, 9, false⟩], false, "X", "Y"⟩]
    ⟨[⟨"1", 5, 1, 1, "X", "Y", 0, 9, false⟩,
      ⟨"2", 5, 1, 1, "X", "Y", 0, 9, false⟩], false, "X", "Y"⟩
    (by decide) (by decide) (by decide) (by decide)

lemma roundTo2_ite (P : Prop) [Decidable P] (q : ℚ) :
    roundTo2 (if P then q else 0) = if P then roundTo2 q else 0 := by
  split_ifs
  · rfl
  · exact roundTo2_zero

/-- C8: each utilization percentage equals the corresponding total divided
by the vehicle's capacity in that dimension, times 100, rounded to 2
decimal places (round-half-to-even over exact rationals in this model),
except that it is 0 when the total is 0; and under the capacity invariant
both utilization values lie in [0, 100]. -/
theorem c8_utilization (r : OptimizeRequest)
    (hw : 0 < r.truck.max_weight_lbs) (hv : 0 < r.truck.max_volume_cuft) :
    ((optimize r).utilization_weight_percent =
      if 0 < (optimize r).total_weight_lbs then
        roundTo2 (((optimize r).total_weight_lbs : ℚ) /
          (r.truck.max_weight_lbs : ℚ) * 100)
      else 0) ∧
    ((optimize r).utilization_volume_percent =
      if 0 < (optimize r).total_volume_cuft then
        roundTo2 (((optimize r).total_volume_cuft : ℚ) /
          (r.truck.max_volume_cuft : ℚ) * 100)
      else 0) ∧
    0 ≤ (optimize r).utilization_weight_percent ∧
    (optimize r).utilization_weight_percent ≤ 100 ∧
    0 ≤ (optimize r).utilization_volume_percent ∧
    (optimize r).utilization_volume_percent ≤ 100 := by
  obtain ⟨hWle, hVle⟩ := optimizeState_totals_le r
  obtain ⟨_, g2, g3, _, _, _, _⟩ := optimizeState_gsound r
  rw [optimize_eq_createResponse]
  have hqw : (0 : ℚ) ≤ ((optimizeState r).best_weight : ℚ) /
      (r.truck.max_weight_lbs : ℚ) * 100 := by positivity
  have hqw' : ((optimizeState r).best_weight : ℚ) /
      (r.truck.max_weight_lbs : ℚ) * 100 ≤ 100 := by
    have hle : (optimizeState r).best_weight ≤ r.truck.max_weight_lbs := by
      rw [g2]; exact hWle
    have hcast : (((optimizeState r).best_weight : ℚ)) ≤
        (r.truck.max_weight_lbs : ℚ) := by exact_mod_cast hle
    have hpos : (0 : ℚ) < (r.truck.max_weight_lbs : ℚ) := by exact_mod_cast hw
    have hdiv : ((optimizeState r).best_weight : ℚ) /
        (r.truck.max_weight_lbs : ℚ) ≤ 1 := by
      rw [div_le_one hpos]; exact hcast
    linarith
  have hqv : (0 : ℚ) ≤ ((optimizeState r).best_volume : ℚ) /
      (r.truck.max_volume_cuft : ℚ) * 100 := by positivity
  have hqv' : ((optimizeState r).best_volume : ℚ) /
      (r.truck.max_volume_cuft : ℚ) * 100 ≤ 100 := by
    have hle : (optimizeState r).best_volume ≤ r.truck.max_volume_cuft := by
      rw [g3]; exact hVle
    have hcast : (((optimizeState r).best_volume : ℚ)) ≤
        (r.truck.max_volume_cuft : ℚ) := by exact_mod_cast hle
    have hpos : (0 : ℚ) < (r.truck.max_volume_cuft : ℚ) := by exact_mod_cast hv
    have hdiv : ((optimizeState r).best_volume : ℚ) /
        (r.truck.max_volume_cuft : ℚ) ≤ 1 := by
      rw [div_le_one hpos]; exact hcast
    linarith
  refine ⟨?_, ?_, ?_, ?_, ?_, ?_⟩
  · exact roundTo2_ite _ _
  · exact roundTo2_ite _ _
  · show (0 : ℚ) ≤ roundTo2 (if (optimizeState r).best_weight > 0 then _ else 0)
    split_ifs
    · exact roundTo2_nonneg hqw
    · rw [roundTo2_zero]
  · show roundTo2 (if (optimizeState r).best_weight > 0 then _ else 0) ≤ 100
    split_ifs
    · exact roundTo2_le_hundred hqw'
    · rw [roundTo2_zero]; norm_num
  · show (0 : ℚ) ≤ roundTo2 (if (optimizeState r).best_volume > 0 then _ else 0)
    split_ifs
    · exact roundTo2_nonneg hqv
    · rw [roundTo2_zero]
  · show roundTo2 (if (optimizeState r).best_volume > 0 then _ else 0) ≤ 100
    split_ifs
    · exact roundTo2_le_hundred hqv'
    · rw [roundTo2_zero]; norm_num

theorem c8_witness :
    0 ≤ (optimize ⟨⟨"T", 45000, 2500⟩,
      [⟨"A", 125000, 12000, 600, "X", "Y", 10, 20, false⟩]⟩).utilization_weight_percent ∧
    (optimize ⟨⟨"T", 45000, 2500⟩,
      [⟨"A", 125000, 12000, 600, "X", "Y", 10, 20, false⟩]⟩).utilization_weight_percent ≤
      100 :=
  ⟨(c8_utilization _ (by decide) (by decide)).2.2.1,
   (c8_utilization ⟨⟨"T", 45000, 2500⟩,
      [⟨"A", 125000, 12000, 600, "X", "Y", 10, 20, false⟩]⟩
      (by decide) (by decide)).2.2.2.1⟩

/-- C10: the returned totals are the sums of payout, weight and volume over
exactly the selected orders; the selected identifiers are those orders'
identifiers, listed once each (given unique input identifiers) and in the
relative order the orders appear in the input list. -/
theorem c10_totals_and_ids (r : OptimizeRequest)
    (hids : (r.orders.map Order.id).Nodup) :
    (optimize r).selected_order_ids =
      (optimizeState r).best_orders.map Order.id ∧
    (optimize r).total_payout_cents = sumPayout (optimizeState r).best_orders ∧
    (optimize r).total_weight_lbs = sumWeight (optimizeState r).best_orders ∧
    (optimize r).total_volume_cuft = sumVolume (optimizeState r).best_orders ∧
    List.Sublist (optimizeState r).best_orders r.orders ∧
    (optimize r).selected_order_ids.Nodup := by
  obtain ⟨g1, g2, g3, _, _, g6, _⟩ := optimizeState_gsound r
  rw [optimize_eq_createResponse]
  refine ⟨rfl, g1, g2, g3, g6, ?_⟩
  show ((optimizeState r).best_orders.map Order.id).Nodup
  exact hids.sublist (g6.map Order.id)

theorem c10_witness :
    (optimize ⟨⟨"T", 45000, 2500⟩,
      [⟨"A", 125000, 12000, 600, "X", "Y", 10, 20, false⟩,
       ⟨"B", 98000, 8500, 450, "X", "Y", 12, 18, false⟩]⟩).selected_order_ids =
      (optimizeState ⟨⟨"T", 45000, 2500⟩,
        [⟨"A", 125000, 12000, 600, "X", "Y", 10, 20, false⟩,
         ⟨"B", 98000, 8500, 450, "X", "Y", 12, 18, false⟩]⟩).best_orders.map
        Order.id ∧
    (optimize ⟨⟨"T", 45000, 2500⟩,
      [⟨"A", 125000, 12000, 600, "X", "Y", 10, 20, false⟩,
       ⟨"B", 98000, 8500, 450, "X", "Y", 12, 18, false⟩]⟩).selected_order_ids.Nodup :=
  ⟨(c10_totals_and_ids _ (by decide)).1,
   (c10_totals_and_ids ⟨⟨"T", 45000, 2500⟩,
      [⟨"A", 125000, 12000, 600, "X", "Y", 10, 20, false⟩,
       ⟨"B", 98000, 8500, 450, "X", "Y", 12, 18, false⟩]⟩ (by decide)).2.2.2.2.2⟩
